import Mathlib

/-!
Verification of the reconciliation-and-caching core of the
`terraform-provider-regru` DNS provider, as a shallow embedding in Lean.

Each definition mirrors one Go function of the repository:
* `sortStrings` — `sort.Strings` (byte-lexicographic ascending sort);
* `addTrailingDot` / `normalizeDomain` — `CommonOperations.AddTrailingDot` /
  `CommonOperations.NormalizeDomain` (`resource/base/common.go`);
* `genericUpdateDiff` — the remove/add computation inside
  `GenericRecordStrategy.Update` (preprocess, sort both sides, then keep the
  entries of one side that do not occur on the other side);
* `MXRecord`, `mxParseRecordsFromState`, `mxFindRecordsToRemove`,
  `mxFindRecordsToAdd` — the MX surgical-update helpers of
  `resource/strategies/mx_record.go` (the NS strategy repeats the same three
  functions verbatim for its `NSRecord`, so the MX definitions stand for both);
* the `Effect` traces, zone cache, CAA parsing, resource-id handling, client
  error formatting and API error checking, introduced further below.
-/

/-- Go byte-wise string comparison `a <= b`, written on the character lists
underlying Lean strings (for the ASCII inputs of this provider the two agree). -/
def lexLe : List Char → List Char → Bool
  | [], _ => true
  | _ :: _, [] => false
  | a :: as, b :: bs => if a = b then lexLe as bs else decide (a < b)

/-- Go comparison `a <= b` on strings, as used by `sort.Strings`. -/
def strLe (a b : String) : Bool := lexLe a.data b.data

/-- Relation form of `strLe`, the sorting relation of `sort.Strings`. -/
def strLeProp (a b : String) : Prop := strLe a b = true

instance : DecidableRel strLeProp := fun a b =>
  inferInstanceAs (Decidable (strLe a b = true))

/-- Model of `sort.Strings`: ascending sort by `strLe`. -/
def sortStrings (l : List String) : List String :=
  List.insertionSort strLeProp l

/-- Model of `CommonOperations.AddTrailingDot`: append `"."` unless already present. -/
def addTrailingDot (s : String) : String :=
  if s.data.getLast? = some '.' then s else s ++ "."

/-- Model of `CommonOperations.NormalizeDomain`: `strings.TrimSuffix(domain, ".")`,
removing a single trailing dot when present. -/
def normalizeDomain (s : String) : String :=
  if s.data.getLast? = some '.' then String.mk s.data.dropLast else s

/-- The remove/add computation of `GenericRecordStrategy.Update`
(`recordsToRemove` / `recordsToAdd`): preprocess both sides, sort them with
`sort.Strings`, then keep each old entry not found among the new entries and
each new entry not found among the old entries (presence test, inner loop with
`break`). -/
def genericUpdateDiff (pre : String → String) (old new : List String) :
    List String × List String :=
  let oldRecordsStr := sortStrings (old.map pre)
  let newRecordsStr := sortStrings (new.map pre)
  let recordsToRemove := oldRecordsStr.filter (fun o => ¬ newRecordsStr.contains o)
  let recordsToAdd := newRecordsStr.filter (fun n => ¬ oldRecordsStr.contains n)
  (recordsToRemove, recordsToAdd)

/-- Model of `MXRecord` of `mx_record.go`: a single (priority, server) pair used for
comparison during surgical update. -/
structure MXRecord where
  priority : Int
  server : String
deriving DecidableEq, Repr

/-- Model of `MXRecordStrategy.parseRecordsFromState`: flatten the `record` blocks
(each a priority with its list of servers) into individual `MXRecord`s. -/
def mxParseRecordsFromState (blocks : List (Int × List String)) : List MXRecord :=
  blocks.flatMap (fun b => b.2.map (fun s => MXRecord.mk b.1 s))

/-- Model of `MXRecordStrategy.findRecordsToRemove`: keep every old record for which no
new record has the same priority and server (no sorting, no counting). -/
def mxFindRecordsToRemove (oldRecords newRecords : List MXRecord) : List MXRecord :=
  oldRecords.filter (fun o =>
    ¬ newRecords.any (fun n => o.priority = n.priority ∧ o.server = n.server))

/-- Model of `MXRecordStrategy.findRecordsToAdd`: keep every new record for which no old
record has the same priority and server. -/
def mxFindRecordsToAdd (oldRecords newRecords : List MXRecord) : List MXRecord :=
  newRecords.filter (fun n =>
    ¬ oldRecords.any (fun o => n.priority = o.priority ∧ n.server = o.server))

/-- A provider-visible side effect issued by a strategy operation: one call on
the `CachedClientInterface` (`AddRecord`, `RemoveRecord`, `AddSRVRecord`, …,
`GetRecordsWithCache`, `InvalidateZoneCache`) or a `d.SetId` on the Terraform
state. Each strategy operation below is embedded as the sequence of effects it
issues on its successful path (every provider call returns without error). -/
inductive Effect where
  | addRecord (recordType zone subdomain value : String) (priority : Option Int)
  | removeRecord (zone subdomain recordType content : String) (priority : Option Int)
  | addSRVRecord (zone subdomain target : String) (priority weight port : Option Int)
  | removeSRVRecord (zone subdomain target : String) (priority weight port : Option Int)
  | addCAARecord (zone subdomain value : String) (flag : Option Int) (tag : Option String)
  | removeCAARecord (zone subdomain value : String) (flag : Option Int) (tag : Option String)
  | getRecordsWithCache (zone : String)
  | invalidateZoneCache (zone : String)
  | setId (id : String)
deriving DecidableEq, Repr

/-- One resource record of the provider's zone response (`base.DNSRecord`). -/
structure DNSRecordWire where
  subname : String
  rectype : String
  content : String
  prio : Int
  state : String
  weight : Int
  port : Int
  flag : Int
  tag : String
deriving DecidableEq, Repr

/-- One domain of the zone response, with its resource records. -/
structure DNSZoneDomain where
  dname : String
  rrs : List DNSRecordWire
deriving DecidableEq, Repr

/-- The `answer` object of the zone response (`base.DNSZoneResponse.Answer`). -/
structure DNSZoneAnswer where
  domains : List DNSZoneDomain
deriving DecidableEq, Repr

/-- Model of `base.DNSZoneResponse`: the parsed `zone/get_resource_records` response. -/
structure DNSZoneResponse where
  result : String
  answer : DNSZoneAnswer
deriving DecidableEq, Repr

/-- Client effects of `GenericRecordStrategy.Read`: a single cached zone fetch
(the rest of `Read` only writes Terraform state). -/
def genericReadCalls (zone : String) : List Effect :=
  [Effect.getRecordsWithCache zone]

/-- Model of `GenericRecordStrategy.Create` (used by A, AAAA, TXT): preprocess and sort
the declared records, validate (at least one record), add each record, set the
two-part resource id, then `Read`. It issues no cache invalidation. -/
def genericCreateCalls (recordType zone name : String) (pre : String → String)
    (records : List String) : Except String (List Effect) :=
  let recordStrings := sortStrings (records.map pre)
  if records.isEmpty then
    .error ("at least one " ++ recordType ++ " record must be specified")
  else
    .ok ((recordStrings.map (fun r => Effect.addRecord recordType zone name r none))
      ++ [Effect.setId (zone ++ "/" ++ name)]
      ++ genericReadCalls zone)

/-- Model of `GenericRecordStrategy.Update`: when `d.HasChange("records")` reports a
change, remove the disappeared records, add the new ones, invalidate the zone
cache, then `Read`; otherwise just `Read`. -/
def genericUpdateCalls (recordType zone name : String) (pre : String → String)
    (old new : List String) (hasChange : Bool) : List Effect :=
  if hasChange then
    let d := genericUpdateDiff pre old new
    (d.1.map (fun r => Effect.removeRecord zone name recordType r none))
      ++ (d.2.map (fun r => Effect.addRecord recordType zone name r none))
      ++ [Effect.invalidateZoneCache zone]
      ++ genericReadCalls zone
  else genericReadCalls zone

/-- Model of `GenericRecordStrategy.Delete`: remove each declared record (after
preprocessing), then invalidate the zone cache. -/
def genericDeleteCalls (recordType zone name : String) (pre : String → String)
    (records : List String) : List Effect :=
  (records.map (fun r => Effect.removeRecord zone name recordType (pre r) none))
    ++ [Effect.invalidateZoneCache zone]

/-- Model of `MXRecordStrategy.Create`: for each priority block add the sorted servers
(with trailing dot), set the two-part resource id, invalidate the zone cache. -/
def mxCreateCalls (zone name : String) (blocks : List (Int × List String)) : List Effect :=
  (blocks.flatMap (fun b => (sortStrings b.2).map
      (fun s => Effect.addRecord "MX" zone name (addTrailingDot s) (some b.1))))
    ++ [Effect.setId (zone ++ "/" ++ name), Effect.invalidateZoneCache zone]

/-- Model of `MXRecordStrategy.Update` (surgical path): parse the old and new `record`
blocks, compute the records to remove and to add, issue the removes then the
adds (each with trailing dot), and invalidate the zone cache. -/
def mxUpdateCalls (zone name : String) (oldBlocks newBlocks : List (Int × List String)) :
    List Effect :=
  let oldMXRecords := mxParseRecordsFromState oldBlocks
  let newMXRecords := mxParseRecordsFromState newBlocks
  ((mxFindRecordsToRemove oldMXRecords newMXRecords).map
      (fun r => Effect.removeRecord zone name "MX" (addTrailingDot r.server) (some r.priority)))
    ++ ((mxFindRecordsToAdd oldMXRecords newMXRecords).map
      (fun r => Effect.addRecord "MX" zone name (addTrailingDot r.server) (some r.priority)))
    ++ [Effect.invalidateZoneCache zone]

/-- Model of `MXRecordStrategy.Delete`: fetch the zone (through the cache), remove every
MX record of the matching domain and subdomain, clear the resource id,
invalidate the zone cache. -/
def mxDeleteCalls (zone name : String) (resp : DNSZoneResponse) : List Effect :=
  [Effect.getRecordsWithCache zone]
    ++ (match resp.answer.domains.find? (fun d => d.dname = zone) with
      | none => []
      | some d => (d.rrs.filter (fun rr => rr.subname = name ∧ rr.rectype = "MX")).map
          (fun rr => Effect.removeRecord zone name "MX" (addTrailingDot rr.content) (some rr.prio)))
    ++ [Effect.setId "", Effect.invalidateZoneCache zone]

/-- Model of `NSRecordStrategy.Create`: add each server of each priority block (with
trailing dot, unsorted), set the two-part id, invalidate the zone cache. -/
def nsCreateCalls (zone name : String) (blocks : List (Int × List String)) : List Effect :=
  (blocks.flatMap (fun b => b.2.map
      (fun s => Effect.addRecord "NS" zone name (addTrailingDot s) (some b.1))))
    ++ [Effect.setId (zone ++ "/" ++ name), Effect.invalidateZoneCache zone]

/-- Model of `NSRecordStrategy.Update`: identical surgical computation to the MX
strategy (`NSRecord` and its two find functions repeat `MXRecord`'s verbatim),
issuing NS calls. -/
def nsUpdateCalls (zone name : String) (oldBlocks newBlocks : List (Int × List String)) :
    List Effect :=
  let oldNSRecords := mxParseRecordsFromState oldBlocks
  let newNSRecords := mxParseRecordsFromState newBlocks
  ((mxFindRecordsToRemove oldNSRecords newNSRecords).map
      (fun r => Effect.removeRecord zone name "NS" (addTrailingDot r.server) (some r.priority)))
    ++ ((mxFindRecordsToAdd oldNSRecords newNSRecords).map
      (fun r => Effect.addRecord "NS" zone name (addTrailingDot r.server) (some r.priority)))
    ++ [Effect.invalidateZoneCache zone]

/-- Model of `NSRecordStrategy.Delete`: remove each server of each old priority block,
then invalidate the zone cache. -/
def nsDeleteCalls (zone name : String) (oldBlocks : List (Int × List String)) : List Effect :=
  (oldBlocks.flatMap (fun b => b.2.map
      (fun s => Effect.removeRecord zone name "NS" (addTrailingDot s) (some b.1))))
    ++ [Effect.invalidateZoneCache zone]

/-- Model of `CNAMERecordStrategy.Create`: add the single CNAME (with trailing dot),
set the two-part id, invalidate the zone cache. -/
def cnameCreateCalls (zone name cname : String) : List Effect :=
  [Effect.addRecord "CNAME" zone name (addTrailingDot cname) none,
   Effect.setId (zone ++ "/" ++ name), Effect.invalidateZoneCache zone]

/-- Model of `CNAMERecordStrategy.Update`: remove the old value when non-empty, add the
new value when non-empty, invalidate the zone cache. -/
def cnameUpdateCalls (zone name oldCNAME newCNAME : String) : List Effect :=
  (if oldCNAME ≠ "" then
      [Effect.removeRecord zone name "CNAME" (addTrailingDot oldCNAME) none] else [])
    ++ (if newCNAME ≠ "" then
      [Effect.addRecord "CNAME" zone name (addTrailingDot newCNAME) none] else [])
    ++ [Effect.invalidateZoneCache zone]

/-- Model of `CNAMERecordStrategy.Delete`: remove the current value (falling back to the
old state's value when empty) when one exists, invalidate the zone cache. -/
def cnameDeleteCalls (zone name cname oldCNAME : String) : List Effect :=
  let c := if cname ≠ "" then cname else oldCNAME
  (if c ≠ "" then [Effect.removeRecord zone name "CNAME" (addTrailingDot c) none] else [])
    ++ [Effect.invalidateZoneCache zone]

/-- Model of `SRVRecord` of `srv_record.go`: priority, weight, port and target. -/
structure SRVRecord where
  priority : Int
  weight : Int
  port : Int
  target : String
deriving DecidableEq, Repr

/-- Model of `SRVRecord.String()`: the sortable key `"%d_%d_%d_%s"`. -/
def srvString (r : SRVRecord) : String :=
  toString r.priority ++ "_" ++ toString r.weight ++ "_" ++ toString r.port ++ "_" ++ r.target

/-- Model of `sort.Slice` by `SRVRecord.String()`. -/
def sortSRVRecords (l : List SRVRecord) : List SRVRecord :=
  List.insertionSort (fun a b => strLe (srvString a) (srvString b) = true) l

/-- Model of `SRVRecordStrategy.parseSRVRecords`: flatten each `record` block
(priority, weight, port, targets) into individual `SRVRecord`s. -/
def srvParseRecords (blocks : List (Int × Int × Int × List String)) : List SRVRecord :=
  blocks.flatMap (fun b => b.2.2.2.map (fun t => SRVRecord.mk b.1 b.2.1 b.2.2.1 t))

/-- Model of `SRVRecordStrategy.Create`: parse, validate non-empty, sort by key, add
each record via `AddSRVRecord`, set the two-part id, then `Read`. It issues no
cache invalidation. -/
def srvCreateCalls (zone name : String) (blocks : List (Int × Int × Int × List String)) :
    Except String (List Effect) :=
  let srvRecords := srvParseRecords blocks
  if srvRecords.isEmpty then
    .error "at least one SRV record must be specified"
  else
    .ok (((sortSRVRecords srvRecords).map (fun r =>
        Effect.addSRVRecord zone name r.target (some r.priority) (some r.weight) (some r.port)))
      ++ [Effect.setId (zone ++ "/" ++ name)]
      ++ [Effect.getRecordsWithCache zone])

/-- Model of `SRVRecordStrategy.Update`: when the `record` field changed, sort both
sides by key, remove the old records whose key is absent on the new side, add
the new records whose key is absent on the old side, invalidate the zone
cache, then `Read`; otherwise just `Read`. -/
def srvUpdateCalls (zone name : String)
    (oldBlocks newBlocks : List (Int × Int × Int × List String)) (hasChange : Bool) :
    List Effect :=
  if hasChange then
    let oldR := sortSRVRecords (srvParseRecords oldBlocks)
    let newR := sortSRVRecords (srvParseRecords newBlocks)
    let recordsToRemove := oldR.filter (fun o => ¬ newR.any (fun n => srvString o = srvString n))
    let recordsToAdd := newR.filter (fun n => ¬ oldR.any (fun o => srvString n = srvString o))
    (recordsToRemove.map (fun r =>
        Effect.removeSRVRecord zone name r.target (some r.priority) (some r.weight) (some r.port)))
      ++ (recordsToAdd.map (fun r =>
        Effect.addSRVRecord zone name r.target (some r.priority) (some r.weight) (some r.port)))
      ++ [Effect.invalidateZoneCache zone]
      ++ [Effect.getRecordsWithCache zone]
  else [Effect.getRecordsWithCache zone]

/-- Model of `SRVRecordStrategy.Delete`: remove each declared record via
`RemoveSRVRecord`, then invalidate the zone cache. -/
def srvDeleteCalls (zone name : String) (blocks : List (Int × Int × Int × List String)) :
    List Effect :=
  ((srvParseRecords blocks).map (fun r =>
      Effect.removeSRVRecord zone name r.target (some r.priority) (some r.weight) (some r.port)))
    ++ [Effect.invalidateZoneCache zone]

/-- Model of `CAARecord` of `caa_record.go`: flag, tag and value. -/
structure CAARecord where
  flag : Int
  tag : String
  value : String
deriving DecidableEq, Repr

/-- Model of `CAARecord.String()`: the sortable key `"%d_%s_%s"`. -/
def caaString (r : CAARecord) : String :=
  toString r.flag ++ "_" ++ r.tag ++ "_" ++ r.value

/-- Model of `sort.Slice` by `CAARecord.String()`. -/
def sortCAARecords (l : List CAARecord) : List CAARecord :=
  List.insertionSort (fun a b => strLe (caaString a) (caaString b) = true) l

/-- Model of `CAARecordStrategy.Create`: validate non-empty, sort by key, add each
record via `AddCAARecord`, set the THREE-part id `zone/name/CAA`, then `Read`.
It issues no cache invalidation. -/
def caaCreateCalls (zone name : String) (records : List CAARecord) :
    Except String (List Effect) :=
  if records.isEmpty then
    .error "at least one CAA record must be specified"
  else
    .ok (((sortCAARecords records).map (fun r =>
        Effect.addCAARecord zone name r.value (some r.flag) (some r.tag)))
      ++ [Effect.setId (zone ++ "/" ++ name ++ "/" ++ "CAA")]
      ++ [Effect.getRecordsWithCache zone])

/-- Model of `CAARecordStrategy.Update`: when the `record` field changed, sort both
sides by key, remove old records with an absent key, add new records with an
absent key, invalidate the zone cache, then `Read`; otherwise just `Read`. -/
def caaUpdateCalls (zone name : String) (old new : List CAARecord) (hasChange : Bool) :
    List Effect :=
  if hasChange then
    let oldR := sortCAARecords old
    let newR := sortCAARecords new
    let recordsToRemove := oldR.filter (fun o => ¬ newR.any (fun n => caaString o = caaString n))
    let recordsToAdd := newR.filter (fun n => ¬ oldR.any (fun o => caaString n = caaString o))
    (recordsToRemove.map (fun r => Effect.removeCAARecord zone name r.value (some r.flag) (some r.tag)))
      ++ (recordsToAdd.map (fun r => Effect.addCAARecord zone name r.value (some r.flag) (some r.tag)))
      ++ [Effect.invalidateZoneCache zone]
      ++ [Effect.getRecordsWithCache zone]
  else [Effect.getRecordsWithCache zone]

/-- Model of `CAARecordStrategy.Delete`: remove each declared record via
`RemoveCAARecord`, then invalidate the zone cache. -/
def caaDeleteCalls (zone name : String) (records : List CAARecord) : List Effect :=
  (records.map (fun r => Effect.removeCAARecord zone name r.value (some r.flag) (some r.tag)))
    ++ [Effect.invalidateZoneCache zone]

/-- Model of `ZoneCacheEntry` of `provider/cache.go`: raw response bytes, the store
timestamp and the entry's TTL. Bytes are modelled as `List Nat`, times and
durations as natural numbers of seconds. -/
structure ZoneCacheEntry where
  data : List Nat
  timestamp : Nat
  ttl : Nat
deriving DecidableEq, Repr

/-- The `ZoneCache` map from zone name to entry, as an association list kept
duplicate-free by the operations below. -/
abbrev ZoneCache := List (String × ZoneCacheEntry)

/-- Model of `ZoneCache.Get`: a missing zone is a miss; an entry with
`time.Since(timestamp) > ttl` is expired, deleted from the map, and a miss;
otherwise the cached data is returned (a hit is `some data`). -/
def zoneCacheGet (zc : ZoneCache) (now : Nat) (zone : String) :
    Option (List Nat) × ZoneCache :=
  match zc.lookup zone with
  | none => (none, zc)
  | some entry =>
    if now - entry.timestamp > entry.ttl then
      (none, zc.filter (fun p => p.1 ≠ zone))
    else (some entry.data, zc)

/-- Model of `ZoneCache.Set`: store the data under the zone with the current timestamp
and the fixed TTL of 30 seconds. -/
def zoneCacheSet (zc : ZoneCache) (now : Nat) (zone : String) (data : List Nat) :
    ZoneCache :=
  (zone, ZoneCacheEntry.mk data now 30) :: zc.filter (fun p => p.1 ≠ zone)

/-- Model of `ZoneCache.Invalidate`: delete the zone's entry. -/
def zoneCacheInvalidate (zc : ZoneCache) (zone : String) : ZoneCache :=
  zc.filter (fun p => p.1 ≠ zone)

/-- Model of `unicode.IsSpace` restricted to the ASCII whitespace relevant here, as used
by `strings.Fields`. -/
def isSpaceChar (c : Char) : Bool := c = ' ' ∨ c = '\t' ∨ c = '\n' ∨ c = '\r'

/-- Worker for `strings.Fields`: split at whitespace runs, `cur` holds the
current field reversed. -/
def fieldsCore : List Char → List Char → List String
  | [], cur => if cur.isEmpty then [] else [String.mk cur.reverse]
  | c :: rest, cur =>
    if isSpaceChar c then
      if cur.isEmpty then fieldsCore rest []
      else String.mk cur.reverse :: fieldsCore rest []
    else fieldsCore rest (c :: cur)

/-- Model of `strings.Fields`: the whitespace-separated fields of a string. -/
def stringFields (s : String) : List String := fieldsCore s.data []

/-- Decimal digit value of a character, if any. -/
def digitVal (c : Char) : Option Nat :=
  if '0' ≤ c ∧ c ≤ '9' then some (c.toNat - '0'.toNat) else none

/-- Digit-list worker for `strconv.Atoi`. -/
def parseDigits : List Char → Nat → Option Nat
  | [], acc => some acc
  | c :: rest, acc =>
    match digitVal c with
    | some d => parseDigits rest (acc * 10 + d)
    | none => none

/-- Model of `strconv.Atoi`: optional sign followed by at least one digit; `none` is
Go's parse error. -/
def atoi (s : String) : Option Int :=
  match s.data with
  | [] => none
  | '-' :: rest => if rest.isEmpty then none else (parseDigits rest 0).map (fun n => -(n : Int))
  | '+' :: rest => if rest.isEmpty then none else (parseDigits rest 0).map (fun n => (n : Int))
  | l => (parseDigits l 0).map (fun n => (n : Int))

/-- Model of `strings.Trim(value, "\"")`: strip all leading and trailing quote
characters. -/
def trimQuotes (s : String) : String :=
  String.mk (((s.data.dropWhile (fun c => c = '"')).reverse.dropWhile
    (fun c => c = '"')).reverse)

/-- The per-record parsing of `CAARecordStrategy.Read`: use the structured
`flag`/`tag` fields when either is set; otherwise tokenize the content with
`strings.Fields` and, given at least three fields, take the flag from the
first (0 on parse error), the tag from the second, and the space-joined rest
as the value, stripping surrounding quotes; with fewer fields the whole
content is the value. The value is normalized in every branch. -/
def caaParseWire (rr : DNSRecordWire) : CAARecord :=
  if rr.flag ≠ 0 ∨ rr.tag ≠ "" then
    CAARecord.mk rr.flag rr.tag (normalizeDomain rr.content)
  else
    match stringFields rr.content with
    | p0 :: p1 :: p2 :: ps =>
      let flag := (atoi p0).getD 0
      let value := String.intercalate " " (p2 :: ps)
      let value :=
        if value.data.head? = some '"' ∧ value.data.getLast? = some '"' then
          trimQuotes value
        else value
      CAARecord.mk flag p1 (normalizeDomain value)
    | _ => CAARecord.mk 0 "" (normalizeDomain rr.content)

/-- Model of `strings.Split` on a one-character separator, over the character list. -/
def splitChar (sep : Char) : List Char → List (List Char)
  | [] => [[]]
  | c :: rest =>
    match splitChar sep rest with
    | [] => [[]]
    | p :: ps => if c = sep then [] :: p :: ps else (c :: p) :: ps

/-- Model of `strings.Split(id, "/")` lifted back to strings. -/
def stringSplitSlash (s : String) : List String :=
  (splitChar '/' s.data).map String.mk

/-- Model of `CommonOperations.ParseResourceID`: split on `"/"`; exactly two parts give
`(zone, name)`, anything else is an error. -/
def parseResourceID (id : String) : Except String (String × String) :=
  match stringSplitSlash id with
  | [zone, name] => .ok (zone, name)
  | _ => .error ("invalid resource ID format: " ++ id)

/-- Model of `CommonOperations.SetResourceID` (also repeated by the MX, NS, CNAME and
SRV strategies): the two-part id `zone/name`; the record type argument is
ignored. -/
def commonSetResourceID (zone name recordType : String) : String :=
  zone ++ "/" ++ name

/-- The id set by `CAARecordStrategy.Create`: the three-part
`zone/name/CAA`. -/
def caaCreateResourceID (zone name : String) : String :=
  zone ++ "/" ++ name ++ "/" ++ "CAA"

/-- The id set by the deprecated generic resource's `resourceDnsRecordCreate`:
the three-part `zone/name/type`. -/
def legacyCreateResourceID (zone name recordType : String) : String :=
  zone ++ "/" ++ name ++ "/" ++ recordType

/-- The flat error body of the provider response (`client.APIError`): error
code, error text, error params and overall result. -/
structure APIErrorBody where
  errorCode : String
  errorText : String
  errorParams : List (String × String)
  result : String
deriving DecidableEq, Repr

/-- Model of `client.formatHumanReadableError`: map known provider error codes to
user-facing messages; unknown codes get the detailed default message (whose
`%v` rendering of the params map is abstracted as a key-value join). -/
def formatHumanReadableError (errorCode errorText : String)
    (errorParams : List (String × String)) : String :=
  if errorCode = "ACCESS_DENIED_FROM_IP" then
    "Access denied: Your IP address is not authorized to access the Reg.ru API. Please contact Reg.ru support to whitelist your IP address or check your account settings."
  else if errorCode = "IP_EXCEEDED_ALLOWED_CONNECTION_RATE" then
    "Rate limit exceeded: Your IP address has exceeded the allowed connection rate to the Reg.ru API. Please wait a few minutes before making additional requests or contact Reg.ru support if this persists."
  else if errorCode = "INVALID_USERNAME_OR_PASSWORD" then
    "Authentication failed: Invalid username or password. Please check your Reg.ru API credentials."
  else if errorCode = "DOMAIN_NOT_FOUND" then
    "Domain not found: The specified domain does not exist in your account or you don't have access to it."
  else if errorCode = "RECORD_NOT_FOUND" then
    "DNS record not found: The specified DNS record does not exist."
  else if errorCode = "INVALID_RECORD_TYPE" then
    "Invalid record type: The specified DNS record type is not supported or invalid."
  else if errorCode = "DUPLICATE_RECORD" then
    "Duplicate record: A DNS record with the same name and type already exists."
  else if errorCode = "INVALID_IP_ADDRESS" then
    "Invalid IP address: The provided IP address format is incorrect."
  else if errorCode = "RATE_LIMIT_EXCEEDED" then
    "Rate limit exceeded: Too many API requests. Please wait before making additional requests."
  else
    let base := "API Error: " ++ errorText ++ " (Code: " ++ errorCode ++ ")"
    if errorParams.isEmpty then base
    else base ++ " - Additional info: " ++
      String.intercalate " " (errorParams.map (fun p => p.1 ++ ":" ++ p.2))

/-- The direct-error check of `client.doRequest`: a body whose `result` is
`"error"` becomes the human-readable error; any other body is passed through
as success. This is the branch that fires on a flat provider error response
such as a `RECORD_NOT_FOUND` answer to `zone/remove_record`. -/
def doRequestCheck (b : APIErrorBody) : Except String Unit :=
  if b.result = "error" then
    .error (formatHumanReadableError b.errorCode b.errorText b.errorParams)
  else .ok ()

/-- The error handling of the deprecated `resourceDnsRecordDelete`: an error
whose text is exactly `"RR_NOT_FOUND"` is absorbed (treated as success);
every other error is wrapped and returned. -/
def resourceDnsRecordDeleteResult (removeResult : Except String Unit) : Except String Unit :=
  match removeResult with
  | .error e =>
    if e = "RR_NOT_FOUND" then .ok ()
    else .error ("failed to delete DNS record: " ++ e)
  | .ok _ => .ok ()

/-- The per-record error handling of `GenericRecordStrategy.Delete`: every
remove error is wrapped and returned; nothing is absorbed. -/
def genericDeleteResult (recordType record : String) (removeResult : Except String Unit) :
    Except String Unit :=
  match removeResult with
  | .error e =>
    .error ("failed to delete " ++ recordType ++ " record " ++ record ++ ": " ++ e)
  | .ok _ => .ok ()

/-- A JSON value, the input shape of `encoding/json`'s `Unmarshal` (a byte
sequence that is not valid JSON fails unmarshalling before reaching this
level and takes the same error branch as a shape mismatch below). -/
inductive Json where
  | null
  | bool (b : Bool)
  | num (n : Int)
  | str (s : String)
  | arr (items : List Json)
  | obj (fields : List (String × Json))

/-- Look up an object key with Go-map semantics (a repeated key keeps its last
value). -/
def getField (fields : List (String × Json)) (key : String) : Option Json :=
  fields.foldl (fun acc p => if p.1 = key then some p.2 else acc) none

/-- Unmarshal a JSON value into a Go `string` field: strings decode to
themselves, `null` leaves the zero value, anything else is a type error. -/
def decodeStr : Json → Except String String
  | .str s => .ok s
  | .null => .ok ""
  | _ => .error "cannot unmarshal value into Go string"

/-- Unmarshal an optional object field into a Go `string`: an absent key
leaves the zero value. -/
def decodeStrField (fields : List (String × Json)) (key : String) :
    Except String String :=
  match getField fields key with
  | none => .ok ""
  | some j => decodeStr j

/-- The `conflicting_records` / `record_to_add` element of
`base.APIErrorResponse`: `data`, `rectype` and `subdomain` strings. -/
structure ConflictingRecord where
  data : String
  rectype : String
  subname : String
deriving DecidableEq, Repr

/-- The `error_params` object of `base.APIErrorResponse`. -/
structure APIErrorParams where
  conflictingRecords : List ConflictingRecord
  recordToAdd : ConflictingRecord
deriving DecidableEq, Repr

/-- One domain of `base.APIErrorResponse.Answer.Domains`. -/
structure APIDomain where
  dname : String
  result : String
  errorCode : String
  errorText : String
  errorParams : APIErrorParams
deriving DecidableEq, Repr

/-- Model of `base.APIErrorResponse`: the error-response shape checked by
`CheckAPIResponseForErrors`. -/
structure APIErrorResponse where
  domains : List APIDomain
  result : String
deriving DecidableEq, Repr

/-- Unmarshal one conflicting record: must be an object (or `null` for the
zero value). -/
def decodeConflicting : Json → Except String ConflictingRecord
  | .null => .ok (ConflictingRecord.mk "" "" "")
  | .obj fields => do
    let data ← decodeStrField fields "data"
    let rectype ← decodeStrField fields "rectype"
    let subname ← decodeStrField fields "subdomain"
    .ok (ConflictingRecord.mk data rectype subname)
  | _ => .error "cannot unmarshal value into Go struct"

/-- Unmarshal a JSON array with an element decoder; `null` leaves the zero
(empty) slice. -/
def decodeArr (dec : Json → Except String α) : Json → Except String (List α)
  | .null => .ok []
  | .arr items => items.mapM dec
  | _ => .error "cannot unmarshal value into Go slice"

/-- Unmarshal the `error_params` object. -/
def decodeParams : Json → Except String APIErrorParams
  | .null => .ok (APIErrorParams.mk [] (ConflictingRecord.mk "" "" ""))
  | .obj fields => do
    let conflicting ←
      match getField fields "conflicting_records" with
      | none => Except.ok []
      | some j => decodeArr decodeConflicting j
    let toAdd ←
      match getField fields "record_to_add" with
      | none => Except.ok (ConflictingRecord.mk "" "" "")
      | some j => decodeConflicting j
    .ok (APIErrorParams.mk conflicting toAdd)
  | _ => .error "cannot unmarshal value into Go struct"

/-- Unmarshal one domain of the answer. -/
def decodeDomain : Json → Except String APIDomain
  | .null => .ok (APIDomain.mk "" "" "" "" (APIErrorParams.mk [] (ConflictingRecord.mk "" "" "")))
  | .obj fields => do
    let dname ← decodeStrField fields "dname"
    let result ← decodeStrField fields "result"
    let errorCode ← decodeStrField fields "error_code"
    let errorText ← decodeStrField fields "error_text"
    let params ←
      match getField fields "error_params" with
      | none => Except.ok (APIErrorParams.mk [] (ConflictingRecord.mk "" "" ""))
      | some j => decodeParams j
    .ok (APIDomain.mk dname result errorCode errorText params)
  | _ => .error "cannot unmarshal value into Go struct"

/-- Unmarshal the `answer` object into its domain list. -/
def decodeAnswer : Json → Except String (List APIDomain)
  | .null => .ok []
  | .obj fields =>
    (match getField fields "domains" with
    | none => Except.ok []
    | some j => decodeArr decodeDomain j)
  | _ => .error "cannot unmarshal value into Go struct"

/-- Model of `json.Unmarshal(response, &apiResponse)` for `base.APIErrorResponse`: the
top level must be an object (or `null`); `answer` and `result` decode as
above, with type mismatches anywhere producing an error. -/
def decodeAPIErrorResponse : Json → Except String APIErrorResponse
  | .null => .ok (APIErrorResponse.mk [] "")
  | .obj fields => do
    let domains ←
      match getField fields "answer" with
      | none => Except.ok []
      | some j => decodeAnswer j
    let result ← decodeStrField fields "result"
    .ok (APIErrorResponse.mk domains result)
  | _ => .error "cannot unmarshal value into Go struct"

/-- The per-domain error message built by `CheckAPIResponseForErrors`. -/
def domainErrorMsg (d : APIDomain) : String :=
  "Domain " ++ d.dname ++ ": " ++ d.errorText ++
    (if d.errorCode ≠ "" then " (Error Code: " ++ d.errorCode ++ ")" else "")

/-- The error scan of `base.CheckAPIResponseForErrors` after a successful
unmarshal: when the top-level result is `"error"`, collect the messages of all
erroring domains and fail with their join when any exist; otherwise (and when
the top-level error had no erroring domain) fail with the first erroring
domain's message, or succeed. -/
def checkParsedAPIResponse (r : APIErrorResponse) : Option String :=
  let errorMessages :=
    if r.result = "error" then
      (r.domains.filter (fun d => d.result = "error")).map domainErrorMsg
    else []
  if r.result = "error" ∧ ¬ errorMessages.isEmpty then
    some ("API operation failed: " ++ String.intercalate "; " errorMessages)
  else
    match r.domains.find? (fun d => d.result = "error") with
    | some d => some ("API operation failed: " ++ domainErrorMsg d)
    | none => none

/-- Model of `base.CheckAPIResponseForErrors`: if the response does not unmarshal as
the error shape, assume it is not an error and return `none` (success);
otherwise scan the parsed response. -/
def checkAPIResponseForErrors (response : Json) : Option String :=
  match decodeAPIErrorResponse response with
  | .error _ => none
  | .ok r => checkParsedAPIResponse r

/-- Model of `NoOpPreprocessor`: the identity preprocessor used by A, AAAA and TXT. -/
def noOpPreprocessor (input : String) : String := input

/-- Totality of `lexLe`. -/
theorem lexLe_total : ∀ (a b : List Char), lexLe a b = true ∨ lexLe b a = true
  | [], _ => Or.inl rfl
  | _ :: _, [] => Or.inr rfl
  | a :: as, b :: bs => by
    by_cases h : a = b
    · subst h
      simpa [lexLe] using lexLe_total as bs
    · rcases lt_or_gt_of_ne h with hlt | hgt
      · left; simp [lexLe, h, hlt]
      · right; simp [lexLe, Ne.symm h, hgt]

/-- Transitivity of `lexLe`. -/
theorem lexLe_trans : ∀ (a b c : List Char),
    lexLe a b = true → lexLe b c = true → lexLe a c = true
  | [], _, _, _, _ => rfl
  | _ :: _, [], _, h, _ => by simp [lexLe] at h
  | _ :: _, _ :: _, [], _, h2 => by simp [lexLe] at h2
  | a :: as, b :: bs, c :: cs, h1, h2 => by
    by_cases hab : a = b
    · subst hab
      by_cases hbc : a = c
      · subst hbc
        simp only [lexLe, if_pos rfl] at h1 h2 ⊢
        exact lexLe_trans as bs cs h1 h2
      · simpa [lexLe, hbc] using (by simpa [lexLe, hbc] using h2 : a < c)
    · by_cases hbc : b = c
      · subst hbc
        simpa [lexLe, hab] using (by simpa [lexLe, hab] using h1 : a < b)
      · have h1' : a < b := by simpa [lexLe, hab] using h1
        have h2' : b < c := by simpa [lexLe, hbc] using h2
        have hac : a < c := lt_trans h1' h2'
        simp [lexLe, ne_of_lt hac, hac]

/-- Antisymmetry of `lexLe`. -/
theorem lexLe_antisymm : ∀ (a b : List Char),
    lexLe a b = true → lexLe b a = true → a = b
  | [], [], _, _ => rfl
  | [], _ :: _, _, h2 => by simp [lexLe] at h2
  | _ :: _, [], h1, _ => by simp [lexLe] at h1
  | a :: as, b :: bs, h1, h2 => by
    by_cases hab : a = b
    · subst hab
      simp only [lexLe, if_pos rfl] at h1 h2
      exact congrArg (a :: ·) (lexLe_antisymm as bs h1 h2)
    · have h1' : a < b := by simpa [lexLe, hab] using h1
      have h2' : b < a := by simpa [lexLe, Ne.symm hab] using h2
      exact absurd (lt_trans h1' h2') (lt_irrefl a)

instance : IsTotal String strLeProp :=
  ⟨fun a b => lexLe_total a.data b.data⟩

instance : IsTrans String strLeProp :=
  ⟨fun a b c => lexLe_trans a.data b.data c.data⟩

instance : IsAntisymm String strLeProp :=
  ⟨fun a b h1 h2 => String.ext (lexLe_antisymm a.data b.data h1 h2)⟩

/-- Sorting permutes its input. -/
theorem sortStrings_perm (l : List String) : (sortStrings l).Perm l :=
  List.perm_insertionSort _ _

/-- Sorting identifies permuted inputs: the heart of order-independence for
the strategies that sort before diffing. -/
theorem sortStrings_eq_of_perm {l' l : List String} (h : l'.Perm l) :
    sortStrings l' = sortStrings l :=
  List.eq_of_perm_of_sorted ((sortStrings_perm l').trans (h.trans (sortStrings_perm l).symm))
    (List.sorted_insertionSort _ _) (List.sorted_insertionSort _ _)

/-- Membership is invariant under the strategy sort. -/
theorem mem_sortStrings {a : String} {l : List String} : a ∈ sortStrings l ↔ a ∈ l :=
  (sortStrings_perm l).mem_iff

/-- Multiplicity is invariant under the strategy sort. -/
theorem count_sortStrings (a : String) (l : List String) :
    (sortStrings l).count a = l.count a :=
  (sortStrings_perm l).count_eq a

/-- Helper: the result of `List.any` only depends on the multiset of
elements. -/
theorem perm_any_eq {α : Type} {l₁ l₂ : List α} (h : l₁.Perm l₂) (f : α → Bool) :
    l₁.any f = l₂.any f := by
  rw [Bool.eq_iff_iff]
  simp only [List.any_eq_true]
  exact ⟨fun ⟨x, hx, hf⟩ => ⟨x, h.mem_iff.mp hx, hf⟩,
    fun ⟨x, hx, hf⟩ => ⟨x, h.mem_iff.mpr hx, hf⟩⟩

/-- Helper: deleting a key from the cache map makes its lookup miss. -/
theorem lookup_filter_ne (zc : ZoneCache) (zone : String) :
    List.lookup zone (zc.filter (fun p => p.1 ≠ zone)) = none := by
  induction zc with
  | nil => rfl
  | cons hd tl ih =>
    by_cases h : hd.1 = zone
    · simpa [List.filter, h] using ih
    · have hne : (zone == hd.1) = false := by
        simp only [beq_eq_false_iff_ne, ne_eq]
        exact fun he => h he.symm
      have hd' : decide ¬ hd.1 = zone = true := by simp [h]
      simp only [List.filter, hd']
      cases hd with
      | mk k v => simpa [List.lookup, hne] using ih

/-- Helper: splitting never produces an empty part list. -/
theorem splitChar_ne_nil (sep : Char) (l : List Char) : splitChar sep l ≠ [] := by
  cases l with
  | nil => simp [splitChar]
  | cons c rest =>
    simp only [splitChar]
    rcases splitChar sep rest with _ | ⟨p, ps⟩
    · simp
    · by_cases h : c = sep <;> simp [h]

/-- Helper: splitting yields one more part than there are separators. -/
theorem splitChar_length (sep : Char) (l : List Char) :
    (splitChar sep l).length = l.count sep + 1 := by
  induction l with
  | nil => simp [splitChar]
  | cons c rest ih =>
    rcases hr : splitChar sep rest with _ | ⟨p, ps⟩
    · exact absurd hr (splitChar_ne_nil sep rest)
    · rw [hr] at ih
      by_cases h : c = sep
      · subst h
        have hstep : splitChar c (c :: rest) = [] :: p :: ps := by simp [splitChar, hr]
        have hcount : List.count c (c :: rest) = List.count c rest + 1 := by
          simp [List.count_cons]
        rw [hstep, hcount]
        simp only [List.length_cons] at *
        omega
      · have hstep : splitChar sep (c :: rest) = (c :: p) :: ps := by simp [splitChar, hr, h]
        have hcount : List.count sep (c :: rest) = List.count sep rest := by
          simp [List.count_cons, h]
        rw [hstep, hcount]
        simp only [List.length_cons] at *
        omega

/-- Helper: a one-part split means the input had no separator. -/
theorem splitChar_singleton (sep : Char) : ∀ (l x : List Char),
    splitChar sep l = [x] → x = l ∧ sep ∉ l
  | [], x, h => by
    simp only [splitChar, List.cons.injEq] at h
    simp [h.1.symm]
  | c :: rest, x, h => by
    rcases hr : splitChar sep rest with _ | ⟨p, ps⟩
    · exact absurd hr (splitChar_ne_nil sep rest)
    · have h' : (if c = sep then [] :: p :: ps else (c :: p) :: ps) = [x] := by
        rw [← h]
        simp [splitChar, hr]
      by_cases hc : c = sep
      · rw [if_pos hc] at h'
        simp at h'
      · rw [if_neg hc] at h'
        obtain ⟨hx, hps⟩ := (List.cons.injEq _ _ _ _).mp h'
        subst hps
        obtain ⟨hp, hsep⟩ := splitChar_singleton sep rest p hr
        subst hp
        subst hx
        refine ⟨rfl, ?_⟩
        simp only [List.mem_cons, not_or]
        exact ⟨fun he => hc he.symm, hsep⟩

/-- Helper: a two-part split decomposes the input around its single
separator. -/
theorem splitChar_pair (sep : Char) : ∀ (l a b : List Char),
    splitChar sep l = [a, b] → l = a ++ sep :: b ∧ sep ∉ a ∧ sep ∉ b
  | [], a, b, h => by simp [splitChar] at h
  | c :: rest, a, b, h => by
    rcases hr : splitChar sep rest with _ | ⟨p, ps⟩
    · exact absurd hr (splitChar_ne_nil sep rest)
    · have h' : (if c = sep then [] :: p :: ps else (c :: p) :: ps) = [a, b] := by
        rw [← h]
        simp [splitChar, hr]
      by_cases hc : c = sep
      · rw [if_pos hc] at h'
        have ha : a = [] := ((List.cons.injEq _ _ _ _).mp h').1.symm
        have hpb : p :: ps = [b] := ((List.cons.injEq _ _ _ _).mp h').2
        have hb' : splitChar sep rest = [b] := by rw [hr, hpb]
        obtain ⟨hb, hsep⟩ := splitChar_singleton sep rest b hb'
        subst ha hb hc
        exact ⟨by simp, by simp, hsep⟩
      · rw [if_neg hc] at h'
        have ha : a = c :: p := ((List.cons.injEq _ _ _ _).mp h').1.symm
        have hps : ps = [b] := ((List.cons.injEq _ _ _ _).mp h').2
        have hpb' : splitChar sep rest = [p, b] := by rw [hr, hps]
        obtain ⟨hrest, hp, hb⟩ := splitChar_pair sep rest p b hpb'
        subst ha hrest
        refine ⟨rfl, ?_, hb⟩
        simp only [List.mem_cons, not_or]
        exact ⟨fun he => hc he.symm, hp⟩

/-- Claim C1, counterexample. The diff inside the update is computed by
presence, not by multiset counting: on old `[A, A, B]` and new `[A, B, B]`
the code produces no operations at all, not `toRemove = [A]`,
`toAdd = [B]` as the claim states. -/
theorem multiset_diff_counterexample :
    genericUpdateDiff noOpPreprocessor ["A", "A", "B"] ["A", "B", "B"] = ([], []) ∧
    genericUpdateDiff noOpPreprocessor ["A", "A", "B"] ["A", "B", "B"] ≠ (["A"], ["B"]) := by
  decide

/-- Claim C1, amended. The update diff works by presence, not counting: a
record occurrence lands in `toRemove` exactly when its (preprocessed) value
occurs in old but not at all in new, with the multiplicity of the old side,
and symmetrically for `toAdd`; a value present on both sides in any
multiplicities contributes no operation. -/
theorem generic_diff_presence (pre : String → String) (old new : List String) (r : String) :
    (r ∈ (genericUpdateDiff pre old new).1 ↔ r ∈ old.map pre ∧ r ∉ new.map pre) ∧
    (r ∈ (genericUpdateDiff pre old new).2 ↔ r ∈ new.map pre ∧ r ∉ old.map pre) ∧
    ((genericUpdateDiff pre old new).1.count r =
      if r ∈ new.map pre then 0 else (old.map pre).count r) ∧
    ((genericUpdateDiff pre old new).2.count r =
      if r ∈ old.map pre then 0 else (new.map pre).count r) := by
  have hmem1 : r ∈ (genericUpdateDiff pre old new).1 ↔ r ∈ old.map pre ∧ r ∉ new.map pre := by
    simp [genericUpdateDiff, List.mem_filter, mem_sortStrings, List.contains, List.elem_eq_mem]
  have hmem2 : r ∈ (genericUpdateDiff pre old new).2 ↔ r ∈ new.map pre ∧ r ∉ old.map pre := by
    simp [genericUpdateDiff, List.mem_filter, mem_sortStrings, List.contains, List.elem_eq_mem]
  refine ⟨hmem1, hmem2, ?_, ?_⟩
  · by_cases h : r ∈ new.map pre
    · simp only [if_pos h]
      rw [List.count_eq_zero]
      intro hr
      exact (hmem1.mp hr).2 h
    · simp only [if_neg h]
      show List.count r (List.filter _ (sortStrings (old.map pre))) = _
      rw [List.count_filter, count_sortStrings]
      simp [List.contains, List.elem_eq_mem, mem_sortStrings, h]
  · by_cases h : r ∈ old.map pre
    · simp only [if_pos h]
      rw [List.count_eq_zero]
      intro hr
      exact (hmem2.mp hr).2 h
    · simp only [if_neg h]
      show List.count r (List.filter _ (sortStrings (new.map pre))) = _
      rw [List.count_filter, count_sortStrings]
      simp [List.contains, List.elem_eq_mem, mem_sortStrings, h]

/-- Claim C2. The MX update from one priority-10 group with servers
`[a, b]` to one priority-10 group with servers `[a, c]` computes exactly
`toRemove = [(10, b)]` and `toAdd = [(10, c)]` and issues exactly one remove
call for `b` and one add call for `c`, both at priority 10, while the
unchanged record `(10, a)` appears in neither list. -/
theorem mx_surgical_update_example :
    mxFindRecordsToRemove (mxParseRecordsFromState [(10, ["a", "b"])])
        (mxParseRecordsFromState [(10, ["a", "c"])]) = [MXRecord.mk 10 "b"] ∧
    mxFindRecordsToAdd (mxParseRecordsFromState [(10, ["a", "b"])])
        (mxParseRecordsFromState [(10, ["a", "c"])]) = [MXRecord.mk 10 "c"] ∧
    mxUpdateCalls "example.com" "@" [(10, ["a", "b"])] [(10, ["a", "c"])] =
      [Effect.removeRecord "example.com" "@" "MX" "b." (some 10),
       Effect.addRecord "MX" "example.com" "@" "c." (some 10),
       Effect.invalidateZoneCache "example.com"] ∧
    MXRecord.mk 10 "a" ∉ mxFindRecordsToRemove (mxParseRecordsFromState [(10, ["a", "b"])])
        (mxParseRecordsFromState [(10, ["a", "c"])]) ∧
    MXRecord.mk 10 "a" ∉ mxFindRecordsToAdd (mxParseRecordsFromState [(10, ["a", "b"])])
        (mxParseRecordsFromState [(10, ["a", "c"])]) := by
  decide

/-- Claim C3, counterexample. A successful generic Create (here an A record)
issues its add calls, sets the id and re-reads, but never invalidates the
zone cache — contradicting the claim that every successful
Create/Update/Delete invalidates the cache before returning. -/
theorem create_missing_invalidation_counterexample :
    genericCreateCalls "A" "example.com" "www" noOpPreprocessor ["1.1.1.1"] =
      Except.ok [Effect.addRecord "A" "example.com" "www" "1.1.1.1" none,
                 Effect.setId "example.com/www",
                 Effect.getRecordsWithCache "example.com"] ∧
    ∀ z, Effect.invalidateZoneCache z ∉
      [Effect.addRecord "A" "example.com" "www" "1.1.1.1" none,
       Effect.setId "example.com/www",
       Effect.getRecordsWithCache "example.com"] := by
  constructor
  · rfl
  · intro z
    simp

/-- Claim C3, amended. Every strategy Delete invalidates the zone cache
before returning, every Update invalidates when it applies a change (the MX
and NS Updates always do), and the MX, NS and CNAME Creates invalidate —
but the generic (A/AAAA/TXT), SRV and CAA Creates return through Read with
no invalidation at all. -/
theorem cache_invalidation_amended
    (zone name recordType cname oldCNAME newCNAME : String) (pre : String → String)
    (records old new : List String) (blocks oldBlocks newBlocks : List (Int × List String))
    (srvBlocks srvOld srvNew : List (Int × Int × Int × List String))
    (caaRecords caaOld caaNew : List CAARecord) (resp : DNSZoneResponse) :
    (Effect.invalidateZoneCache zone ∈ genericDeleteCalls recordType zone name pre records ∧
     Effect.invalidateZoneCache zone ∈ mxDeleteCalls zone name resp ∧
     Effect.invalidateZoneCache zone ∈ nsDeleteCalls zone name oldBlocks ∧
     Effect.invalidateZoneCache zone ∈ cnameDeleteCalls zone name cname oldCNAME ∧
     Effect.invalidateZoneCache zone ∈ srvDeleteCalls zone name srvBlocks ∧
     Effect.invalidateZoneCache zone ∈ caaDeleteCalls zone name caaRecords) ∧
    (Effect.invalidateZoneCache zone ∈ genericUpdateCalls recordType zone name pre old new true ∧
     Effect.invalidateZoneCache zone ∈ mxUpdateCalls zone name oldBlocks newBlocks ∧
     Effect.invalidateZoneCache zone ∈ nsUpdateCalls zone name oldBlocks newBlocks ∧
     Effect.invalidateZoneCache zone ∈ cnameUpdateCalls zone name oldCNAME newCNAME ∧
     Effect.invalidateZoneCache zone ∈ srvUpdateCalls zone name srvOld srvNew true ∧
     Effect.invalidateZoneCache zone ∈ caaUpdateCalls zone name caaOld caaNew true) ∧
    (Effect.invalidateZoneCache zone ∈ mxCreateCalls zone name blocks ∧
     Effect.invalidateZoneCache zone ∈ nsCreateCalls zone name blocks ∧
     Effect.invalidateZoneCache zone ∈ cnameCreateCalls zone name cname) ∧
    ((∀ t, genericCreateCalls recordType zone name pre records = .ok t →
        ∀ z, Effect.invalidateZoneCache z ∉ t) ∧
     (∀ t, srvCreateCalls zone name srvBlocks = .ok t →
        ∀ z, Effect.invalidateZoneCache z ∉ t) ∧
     (∀ t, caaCreateCalls zone name caaRecords = .ok t →
        ∀ z, Effect.invalidateZoneCache z ∉ t)) := by
  refine ⟨⟨?_, ?_, ?_, ?_, ?_, ?_⟩, ⟨?_, ?_, ?_, ?_, ?_, ?_⟩, ⟨?_, ?_, ?_⟩, ?_, ?_, ?_⟩
  · simp [genericDeleteCalls]
  · simp [mxDeleteCalls]
  · simp [nsDeleteCalls]
  · simp [cnameDeleteCalls]
  · simp [srvDeleteCalls]
  · simp [caaDeleteCalls]
  · simp [genericUpdateCalls]
  · simp [mxUpdateCalls]
  · simp [nsUpdateCalls]
  · simp [cnameUpdateCalls]
  · simp [srvUpdateCalls]
  · simp [caaUpdateCalls]
  · simp [mxCreateCalls]
  · simp [nsCreateCalls]
  · simp [cnameCreateCalls]
  · intro t ht z
    unfold genericCreateCalls at ht
    split at ht
    · exact absurd ht (by simp)
    · have := Except.ok.inj ht
      subst this
      simp [genericReadCalls]
  · intro t ht z
    simp only [srvCreateCalls] at ht
    split at ht
    · exact absurd ht (by simp)
    · have := Except.ok.inj ht
      subst this
      simp
  · intro t ht z
    simp only [caaCreateCalls] at ht
    split at ht
    · exact absurd ht (by simp)
    · have := Except.ok.inj ht
      subst this
      simp

/-- Claim C3, witness for the amended theorem at concrete inputs: the generic
Delete invalidates, while the successful generic Create's trace contains no
invalidation. -/
theorem cache_invalidation_amended_witness :
    Effect.invalidateZoneCache "example.com" ∈
      genericDeleteCalls "A" "example.com" "www" noOpPreprocessor ["1.1.1.1"] ∧
    Effect.invalidateZoneCache "example.com" ∉
      [Effect.addRecord "A" "example.com" "www" "1.1.1.1" none,
       Effect.setId "example.com/www",
       Effect.getRecordsWithCache "example.com"] :=
  ⟨(cache_invalidation_amended "example.com" "www" "A" "c" "o" "n" noOpPreprocessor
      ["1.1.1.1"] [] [] [] [] [] [] [] [] [] [] []
      (DNSZoneResponse.mk "success" (DNSZoneAnswer.mk []))).1.1,
   (cache_invalidation_amended "example.com" "www" "A" "c" "o" "n" noOpPreprocessor
      ["1.1.1.1"] [] [] [] [] [] [] [] [] [] [] []
      (DNSZoneResponse.mk "success" (DNSZoneAnswer.mk []))).2.2.2.1
      [Effect.addRecord "A" "example.com" "www" "1.1.1.1" none,
       Effect.setId "example.com/www",
       Effect.getRecordsWithCache "example.com"] (by rfl) "example.com"⟩

/-- Claim C4. The provider's `RECORD_NOT_FOUND` signal on a remove becomes
the human-readable message `"DNS record not found: …"`, which is not the
literal `"RR_NOT_FOUND"` that the deprecated delete handler absorbs, so both
the deprecated delete and the strategy delete return an error instead of
the success the claim (and the code's own comment) promise; only the
never-produced literal `"RR_NOT_FOUND"` would be absorbed. -/
theorem record_not_found_delete :
    doRequestCheck (APIErrorBody.mk "RECORD_NOT_FOUND" "Record not found" [] "error") =
      Except.error "DNS record not found: The specified DNS record does not exist." ∧
    "DNS record not found: The specified DNS record does not exist." ≠ "RR_NOT_FOUND" ∧
    resourceDnsRecordDeleteResult
        (Except.error "DNS record not found: The specified DNS record does not exist.") =
      Except.error
        "failed to delete DNS record: DNS record not found: The specified DNS record does not exist." ∧
    genericDeleteResult "A" "1.2.3.4"
        (Except.error "DNS record not found: The specified DNS record does not exist.") =
      Except.error
        "failed to delete A record 1.2.3.4: DNS record not found: The specified DNS record does not exist." ∧
    resourceDnsRecordDeleteResult (Except.error "RR_NOT_FOUND") = Except.ok () :=
  ⟨rfl, by decide, rfl, rfl, rfl⟩

/-- Claim C5. A successful CAA Create sets the THREE-part identifier
`zone/name/CAA`, unlike the two-part `zone/name` of the common
`SetResourceID` used by the other dedicated types, and the three-part id is
rejected by the strategy's own `ParseResourceID`; the deprecated generic
resource also produces a three-part id. -/
theorem caa_create_id_three_part :
    caaCreateResourceID "example.com" "@" = "example.com/@/CAA" ∧
    commonSetResourceID "example.com" "@" "CAA" = "example.com/@" ∧
    caaCreateResourceID "example.com" "@" ≠ commonSetResourceID "example.com" "@" "CAA" ∧
    parseResourceID (caaCreateResourceID "example.com" "@") =
      Except.error "invalid resource ID format: example.com/@/CAA" ∧
    parseResourceID (commonSetResourceID "example.com" "@" "CAA") =
      Except.ok ("example.com", "@") ∧
    legacyCreateResourceID "example.com" "www" "A" = "example.com/www/A" :=
  ⟨rfl, rfl, by decide, rfl, rfl, rfl⟩

/-- Claim C6. After `set(zone, data)`, a `get(zone)` within the fixed
30-second TTL returns the data as a hit and leaves the cache unchanged; a
`get` strictly after the TTL has elapsed is a miss that also evicts the
entry, and a `get` after `invalidate(zone)` is a miss. -/
theorem zone_cache_ttl (zc : ZoneCache) (zone : String) (data : List Nat) (tset tget : Nat) :
    (tget - tset ≤ 30 →
      zoneCacheGet (zoneCacheSet zc tset zone data) tget zone =
        (some data, zoneCacheSet zc tset zone data)) ∧
    (tget - tset > 30 →
      (zoneCacheGet (zoneCacheSet zc tset zone data) tget zone).1 = none ∧
      List.lookup zone (zoneCacheGet (zoneCacheSet zc tset zone data) tget zone).2 = none) ∧
    (zoneCacheGet (zoneCacheInvalidate (zoneCacheSet zc tset zone data) zone) tget zone).1 =
      none := by
  have hlook : List.lookup zone (zoneCacheSet zc tset zone data) =
      some (ZoneCacheEntry.mk data tset 30) := by
    simp [zoneCacheSet, List.lookup]
  refine ⟨?_, ?_, ?_⟩
  · intro h
    have hnot : ¬ (tget - tset > 30) := by omega
    simp [zoneCacheGet, hlook, hnot]
  · intro h
    simp only [zoneCacheGet, hlook]
    rw [if_pos h]
    exact ⟨rfl, lookup_filter_ne _ _⟩
  · simp only [zoneCacheGet, zoneCacheInvalidate, lookup_filter_ne]

/-- Claim C6, witness: with the entry stored at time 0, a read at 30 seconds
still hits, a read at 31 seconds misses, and a read after invalidation
misses. -/
theorem zone_cache_ttl_witness :
    zoneCacheGet (zoneCacheSet [] 0 "example.com" [1, 2]) 30 "example.com" =
      (some [1, 2], zoneCacheSet [] 0 "example.com" [1, 2]) ∧
    (zoneCacheGet (zoneCacheSet [] 0 "example.com" [1, 2]) 31 "example.com").1 = none ∧
    (zoneCacheGet (zoneCacheInvalidate (zoneCacheSet [] 0 "example.com" [1, 2]) "example.com")
        5 "example.com").1 = none :=
  ⟨(zone_cache_ttl [] "example.com" [1, 2] 0 30).1 (by decide),
   ((zone_cache_ttl [] "example.com" [1, 2] 0 31).2.1 (by decide)).1,
   (zone_cache_ttl [] "example.com" [1, 2] 0 5).2.2⟩

/-- Claim C7. A CAA record returned without structured fields (flag 0, empty
tag) and content `0 issue "letsencrypt.org"` parses through the whitespace
fallback to flag 0, tag `issue` and the unquoted value `letsencrypt.org`. -/
theorem caa_fallback_parse :
    caaParseWire (DNSRecordWire.mk "@" "CAA" "0 issue \"letsencrypt.org\"" 0 "" 0 0 0 "") =
      CAARecord.mk 0 "issue" "letsencrypt.org" := by
  decide

/-- Claim C8, counterexample. The MX diff does not sort its inputs, so
permuting the old side permutes the output: on a permuted old list the
computed `toRemove` differs (in order) from the unpermuted one. -/
theorem diff_order_dependence_counterexample :
    List.Perm [MXRecord.mk 10 "c", MXRecord.mk 10 "b"] [MXRecord.mk 10 "b", MXRecord.mk 10 "c"] ∧
    mxFindRecordsToRemove [MXRecord.mk 10 "c", MXRecord.mk 10 "b"] [] ≠
      mxFindRecordsToRemove [MXRecord.mk 10 "b", MXRecord.mk 10 "c"] [] := by
  decide

/-- Claim C8, amended. The generic (A/AAAA/TXT) diff sorts both sides first
and is therefore fully order-independent, output order included; the MX (and
identical NS) diff does not sort, so its outputs are order-independent only
as multisets: permuting the inputs permutes `toRemove` and `toAdd`. -/
theorem diff_order_independence_amended (pre : String → String)
    (old old' new new' : List String) (ho : old'.Perm old) (hn : new'.Perm new)
    (oldM oldM' newM newM' : List MXRecord) (hmo : oldM'.Perm oldM) (hmn : newM'.Perm newM) :
    genericUpdateDiff pre old' new' = genericUpdateDiff pre old new ∧
    (mxFindRecordsToRemove oldM' newM').Perm (mxFindRecordsToRemove oldM newM) ∧
    (mxFindRecordsToAdd oldM' newM').Perm (mxFindRecordsToAdd oldM newM) := by
  refine ⟨?_, ?_, ?_⟩
  · unfold genericUpdateDiff
    rw [sortStrings_eq_of_perm (ho.map pre), sortStrings_eq_of_perm (hn.map pre)]
  · unfold mxFindRecordsToRemove
    have hstep : ∀ x ∈ oldM',
        (decide ¬ (newM'.any (fun n => x.priority = n.priority ∧ x.server = n.server)) = true) =
        (decide ¬ (newM.any (fun n => x.priority = n.priority ∧ x.server = n.server)) = true) := by
      intro x _
      rw [perm_any_eq hmn]
    rw [List.filter_congr hstep]
    exact hmo.filter _
  · unfold mxFindRecordsToAdd
    have hstep : ∀ x ∈ newM',
        (decide ¬ (oldM'.any (fun o => x.priority = o.priority ∧ x.server = o.server)) = true) =
        (decide ¬ (oldM.any (fun o => x.priority = o.priority ∧ x.server = o.server)) = true) := by
      intro x _
      rw [perm_any_eq hmo]
    rw [List.filter_congr hstep]
    exact hmn.filter _

/-- Claim C8, witness for the amended theorem at concrete permuted inputs. -/
theorem diff_order_independence_amended_witness :
    genericUpdateDiff noOpPreprocessor ["2.2.2.2", "1.1.1.1"] ["3.3.3.3", "1.1.1.1"] =
      genericUpdateDiff noOpPreprocessor ["1.1.1.1", "2.2.2.2"] ["1.1.1.1", "3.3.3.3"] ∧
    (mxFindRecordsToRemove [MXRecord.mk 10 "c", MXRecord.mk 10 "b"] [MXRecord.mk 10 "b"]).Perm
      (mxFindRecordsToRemove [MXRecord.mk 10 "b", MXRecord.mk 10 "c"] [MXRecord.mk 10 "b"]) ∧
    (mxFindRecordsToAdd [MXRecord.mk 10 "c", MXRecord.mk 10 "b"] [MXRecord.mk 10 "b"]).Perm
      (mxFindRecordsToAdd [MXRecord.mk 10 "b", MXRecord.mk 10 "c"] [MXRecord.mk 10 "b"]) :=
  diff_order_independence_amended noOpPreprocessor
    ["1.1.1.1", "2.2.2.2"] ["2.2.2.2", "1.1.1.1"] ["1.1.1.1", "3.3.3.3"] ["3.3.3.3", "1.1.1.1"]
    (by decide) (by decide)
    [MXRecord.mk 10 "b", MXRecord.mk 10 "c"] [MXRecord.mk 10 "c", MXRecord.mk 10 "b"]
    [MXRecord.mk 10 "b"] [MXRecord.mk 10 "b"]
    (by decide) (by decide)

/-- Claim C9. Parsing a resource or import identifier succeeds, with the
parts around the single separator as zone and name, exactly when splitting
on `/` yields two parts — equivalently when the identifier contains exactly
one `/`; every other identifier is rejected with an error. -/
theorem parse_resource_id_exactly_two_parts (id : String) :
    ((∃ zone name, parseResourceID id = .ok (zone, name)) ↔ id.data.count '/' = 1) ∧
    (∀ zone name, parseResourceID id = .ok (zone, name) →
      id.data = zone.data ++ '/' :: name.data ∧ '/' ∉ zone.data ∧ '/' ∉ name.data) := by
  have hlen := splitChar_length '/' id.data
  constructor
  · constructor
    · rintro ⟨zone, name, h⟩
      unfold parseResourceID stringSplitSlash at h
      rcases hs : splitChar '/' id.data with _ | ⟨a, rest⟩
      · exact absurd hs (splitChar_ne_nil _ _)
      · rcases rest with _ | ⟨b, rest2⟩
        · rw [hs] at h; simp at h
        · rcases rest2 with _ | ⟨c, rest3⟩
          · rw [hs] at hlen
            simp at hlen
            omega
          · rw [hs] at h; simp at h
    · intro h
      rw [h] at hlen
      rcases hs : splitChar '/' id.data with _ | ⟨a, rest⟩
      · exact absurd hs (splitChar_ne_nil _ _)
      · rcases rest with _ | ⟨b, rest2⟩
        · rw [hs] at hlen; simp at hlen
        · rcases rest2 with _ | ⟨c, rest3⟩
          · exact ⟨String.mk a, String.mk b, by
              unfold parseResourceID stringSplitSlash
              rw [hs]
              rfl⟩
          · rw [hs] at hlen; simp at hlen
  · intro zone name h
    unfold parseResourceID stringSplitSlash at h
    rcases hs : splitChar '/' id.data with _ | ⟨a, rest⟩
    · exact absurd hs (splitChar_ne_nil _ _)
    · rcases rest with _ | ⟨b, rest2⟩
      · rw [hs] at h; simp at h
      · rcases rest2 with _ | ⟨c, rest3⟩
        · rw [hs] at h
          simp only [List.map_cons, List.map_nil] at h
          injection h with h2
          obtain ⟨hz, hn⟩ := (Prod.mk.injEq _ _ _ _).mp h2
          obtain ⟨hl, hna, hnb⟩ := splitChar_pair '/' id.data a b hs
          subst hz hn
          exact ⟨hl, hna, hnb⟩
        · rw [hs] at h; simp at h

/-- Claim C9, witness: the identifier `example.com/www` parses to its zone
and name, which recompose it around the single slash. -/
theorem parse_resource_id_witness :
    parseResourceID "example.com/www" = Except.ok ("example.com", "www") ∧
    ("example.com/www" : String).data =
      ("example.com" : String).data ++ '/' :: ("www" : String).data ∧
    '/' ∉ ("example.com" : String).data :=
  ⟨by rfl,
   ((parse_resource_id_exactly_two_parts "example.com/www").2 "example.com" "www" (by rfl)).1,
   ((parse_resource_id_exactly_two_parts "example.com/www").2 "example.com" "www" (by rfl)).2.1⟩

/-- Claim C10. Any response that fails to unmarshal as the API
error-response shape is treated as success: the checker returns no error. -/
theorem unparseable_response_is_success (j : Json) (e : String)
    (h : decodeAPIErrorResponse j = .error e) :
    checkAPIResponseForErrors j = none := by
  unfold checkAPIResponseForErrors
  rw [h]

/-- Claim C10, witness: a plain JSON string is not the error-response shape
and is silently treated as success. -/
theorem unparseable_response_is_success_witness :
    decodeAPIErrorResponse (Json.str "plain text body") =
      Except.error "cannot unmarshal value into Go struct" ∧
    checkAPIResponseForErrors (Json.str "plain text body") = none :=
  ⟨rfl, unparseable_response_is_success (Json.str "plain text body") _ rfl⟩
